import Mathlib

/-!
Shallow embedding of the Vencord Translate plugin core
(selection-mode state machine, progress tracker, translation result store,
OpenRouter LLM backend, batch orchestrator), with theorems checking the
specification claims against the embedded code.

Sources embedded:
- src/plugins/translate/selectionMode.tsx
- src/plugins/translate/progressBar.tsx
- src/plugins/translate/translationStore.ts
- src/plugins/translate/openrouter.ts
-/

namespace VencordTranslate

/-- TranslationValue from utils: the result of a provider call. -/
structure TranslationValue where
  sourceLanguage : String
  text : String
deriving DecidableEq, Repr

/-- SavedTranslation from settings: what TranslationStore persists per message id. -/
structure SavedTranslation where
  text : String
  sourceLanguage : String
  model : Option String
  timestamp : Nat
deriving DecidableEq, Repr

/-- Builds the SavedTranslation record exactly as TranslationStore.save does,
with Date.now() passed in explicitly as `now`. -/
def mkSaved (result : TranslationValue) (model : Option String) (now : Nat) : SavedTranslation :=
  { text := result.text, sourceLanguage := result.sourceLanguage, model := model, timestamp := now }

/-! ## Selection-mode state machine (selectionMode.tsx)

The module-level mutable state is `_isSelectionMode`, `_selectedIds` (a JS Set,
iteration in insertion order), `_currentChannelId` and `_lastSelectedId`.
We embed the Set as a list in insertion order.  Each element carries, as a
ghost second component, the channel id passed to the `toggleMessageSelection`
call that added it; the running code stores only the message id (the first
component), so every operation below inspects only the first component. -/

structure SelState where
  isSelectionMode : Bool
  selectedIds : List (String × String)
  currentChannelId : Option String
  lastSelectedId : Option String
deriving DecidableEq, Repr

/-- Initial module state of selectionMode.tsx. -/
def initialSel : SelState :=
  { isSelectionMode := false, selectedIds := [], currentChannelId := none, lastSelectedId := none }

/-- toggleSelectionMode: flips the mode; when turning off, clears the set,
the channel binding and the last-selected id. -/
def toggleSelectionMode (s : SelState) : SelState :=
  if !s.isSelectionMode then
    { s with isSelectionMode := true }
  else
    { isSelectionMode := false, selectedIds := [], currentChannelId := none, lastSelectedId := none }

/-- exitSelectionMode: forces mode off and clears everything, from any state. -/
def exitSelectionMode (_s : SelState) : SelState :=
  { isSelectionMode := false, selectedIds := [], currentChannelId := none, lastSelectedId := none }

/-- isMessageSelected: membership test of the Set (`_selectedIds.has(messageId)`). -/
def isMessageSelected (s : SelState) (messageId : String) : Bool :=
  s.selectedIds.any (fun p => p.1 = messageId)

/-- First half of toggleMessageSelection: auto-set the channel on first
selection; on a channel switch, clear the set and rebind. -/
def bindChannel (s : SelState) (channelId : String) : SelState :=
  match s.currentChannelId with
  | none => { s with currentChannelId := some channelId }
  | some c =>
    if c ≠ channelId then
      { s with selectedIds := [], currentChannelId := some channelId, lastSelectedId := none }
    else s

/-- Second half of toggleMessageSelection: toggle membership of the message id
and record it as last selected.  Set.delete is embedded as removal of the
entries carrying that id (the Set holds each id at most once, so this is the
same operation); Set.add appends in insertion order. -/
def toggleMembership (s : SelState) (messageId channelId : String) : SelState :=
  let newSel :=
    if isMessageSelected s messageId then
      s.selectedIds.filter (fun p => p.1 ≠ messageId)
    else
      s.selectedIds ++ [(messageId, channelId)]
  { s with selectedIds := newSel, lastSelectedId := some messageId }

/-- toggleMessageSelection from selectionMode.tsx: no-op when the mode is off,
otherwise channel binding followed by the membership toggle. -/
def toggleMessageSelection (s : SelState) (messageId channelId : String) : SelState :=
  if !s.isSelectionMode then s
  else toggleMembership (bindChannel s channelId) messageId channelId

/-- getSelectedCount: size of the selection set. -/
def getSelectedCount (s : SelState) : Nat :=
  s.selectedIds.length

/-- Events that drive the selection-mode state machine. -/
inductive SelEvent where
  | toggle : SelEvent
  | exitMode : SelEvent
  | select (messageId channelId : String) : SelEvent
deriving DecidableEq, Repr

/-- One step of the selection-mode machine. -/
def selStep (s : SelState) : SelEvent → SelState
  | .toggle => toggleSelectionMode s
  | .exitMode => exitSelectionMode s
  | .select m c => toggleMessageSelection s m c

/-- Runs a sequence of events from the initial module state. -/
def selRun (events : List SelEvent) : SelState :=
  events.foldl selStep initialSel

/-- Specification-side tracker for claim C2, written from the words of the
spec, not from the code: one step records only whether the mode is on and the
channel of the most recent select call executed while the mode was on since
the last mode-reset (toggle-off, exit, or the initial state); a select call
made while the mode is off is ignored. -/
def specSelStep (mc : Bool × Option String) (ev : SelEvent) : Bool × Option String :=
  match ev with
  | .toggle => if mc.1 then (false, none) else (true, mc.2)
  | .exitMode => (false, none)
  | .select _ c => if mc.1 then (true, some c) else mc

/-- Spec-side tracker over a whole event sequence. -/
def specSelTrack (events : List SelEvent) : Bool × Option String :=
  events.foldl specSelStep (false, none)

/-- Coupling invariant between the code state and the spec tracker:
the mode bits agree, the bound channel agrees, off-mode implies a cleared
state, and every member of the selection set was selected in the currently
bound channel (its ghost channel annotation matches the binding). -/
def selCoupled (s : SelState) (mc : Bool × Option String) : Prop :=
  s.isSelectionMode = mc.1 ∧
  s.currentChannelId = mc.2 ∧
  (s.isSelectionMode = false → s.currentChannelId = none ∧ s.selectedIds = []) ∧
  (∀ p ∈ s.selectedIds, s.currentChannelId = some p.2)

theorem selCoupled_init : selCoupled initialSel (false, none) := by
  refine ⟨rfl, rfl, fun _ => ⟨rfl, rfl⟩, ?_⟩
  intro p hp
  simp [initialSel] at hp

theorem bindChannel_mode (s : SelState) (c : String) :
    (bindChannel s c).isSelectionMode = s.isSelectionMode := by
  unfold bindChannel
  cases s.currentChannelId with
  | none => rfl
  | some c0 => by_cases h : c0 ≠ c <;> simp [h]

theorem bindChannel_channel (s : SelState) (c : String) :
    (bindChannel s c).currentChannelId = some c := by
  unfold bindChannel
  cases hcc : s.currentChannelId with
  | none => rfl
  | some c0 =>
    by_cases h : c0 ≠ c
    · simp [h]
    · push_neg at h
      simp only [ne_eq, h, not_true_eq_false, if_false]
      rw [hcc, h]

theorem bindChannel_inv (s : SelState) (c : String)
    (hinv : ∀ p ∈ s.selectedIds, s.currentChannelId = some p.2) :
    ∀ p ∈ (bindChannel s c).selectedIds, (p.2 : String) = c := by
  intro p hp
  unfold bindChannel at hp
  cases hcc : s.currentChannelId with
  | none =>
    rw [hcc] at hp
    simp only at hp
    have := hinv p hp
    rw [hcc] at this
    exact absurd this (by simp)
  | some c0 =>
    rw [hcc] at hp
    by_cases h : c0 ≠ c
    · simp [h] at hp
    · push_neg at h
      simp only [h] at hp
      simp only [ne_eq, not_true_eq_false, if_false] at hp
      have := hinv p hp
      rw [hcc] at this
      have hc0 : c0 = p.2 := by simpa using this
      exact hc0 ▸ h

theorem toggleMembership_inv (s : SelState) (m c : String)
    (hinv : ∀ p ∈ s.selectedIds, (p.2 : String) = c) :
    ∀ p ∈ (toggleMembership s m c).selectedIds, (p.2 : String) = c := by
  intro p hp
  unfold toggleMembership at hp
  simp only at hp
  by_cases hsel : isMessageSelected s m
  · simp only [hsel, if_true] at hp
    exact hinv p (List.mem_of_mem_filter hp)
  · simp only [hsel, if_false] at hp
    rcases List.mem_append.1 hp with h1 | h2
    · exact hinv p h1
    · simp at h2
      simp [h2]

theorem selCoupled_step (s : SelState) (mc : Bool × Option String) (e : SelEvent)
    (h : selCoupled s mc) : selCoupled (selStep s e) (specSelStep mc e) := by
  obtain ⟨hm, hc, hoff, hinv⟩ := h
  cases e with
  | toggle =>
    by_cases hmode : s.isSelectionMode
    · simp [selStep, toggleSelectionMode, specSelStep, hmode, ← hm, selCoupled]
    · simp only [Bool.not_eq_true] at hmode
      obtain ⟨hcn, hsn⟩ := hoff hmode
      refine ⟨?_, ?_, ?_, ?_⟩ <;>
        simp_all [selStep, toggleSelectionMode, specSelStep, selCoupled]
  | exitMode =>
    refine ⟨?_, ?_, ?_, ?_⟩ <;> simp [selStep, exitSelectionMode, specSelStep, ← hm]
  | select m c =>
    by_cases hmode : s.isSelectionMode
    · simp only [selStep, toggleMessageSelection, hmode, Bool.not_true, Bool.false_eq_true,
        if_false, specSelStep, ← hm, if_true]
      have hmode2 : (toggleMembership (bindChannel s c) m c).isSelectionMode = true := by
        simp [toggleMembership, bindChannel_mode, hmode]
      have hchan2 : (toggleMembership (bindChannel s c) m c).currentChannelId = some c := by
        simp [toggleMembership, bindChannel_channel]
      refine ⟨hmode2, hchan2, ?_, ?_⟩
      · intro hcontra
        rw [hmode2] at hcontra
        exact absurd hcontra (by simp)
      · intro p hp
        rw [hchan2]
        have := toggleMembership_inv (bindChannel s c) m c (bindChannel_inv s c hinv) p hp
        rw [this]
    · simp only [Bool.not_eq_true] at hmode
      simp only [selStep, toggleMessageSelection, hmode, Bool.not_false, if_true,
        specSelStep, ← hm, if_false]
      exact ⟨hm, hc, hoff, hinv⟩

theorem selCoupled_run (events : List SelEvent) :
    selCoupled (selRun events) (specSelTrack events) := by
  rw [specSelTrack, selRun]
  have main : ∀ (l : List SelEvent) (s : SelState) (mc : Bool × Option String),
      selCoupled s mc → selCoupled (l.foldl selStep s) (l.foldl specSelStep mc) := by
    intro l
    induction l with
    | nil => intro s mc h; exact h
    | cons e rest ih =>
      intro s mc h
      exact ih _ _ (selCoupled_step s mc e h)
  exact main events initialSel (false, none) selCoupled_init

/-- C2: for every sequence of select(messageId, channelId) calls interleaved
with toggle/exit, (1) the bound channel always equals the channel of the most
recent select executed while the mode was on since the last mode-reset (which
is exactly the most recent select following a mode-reset or channel-switch,
since every in-mode select leaves its own channel bound), and the selection
set never contains ids from more than one channel (every member was selected
under the currently bound channel); (2) a select whose channel differs from
the bound channel clears the whole set and rebinds to the new channel; (3) a
select while the mode is off is a no-op. -/
theorem C2_selection_channel_invariant :
    (∀ events : List SelEvent,
        (selRun events).currentChannelId = (specSelTrack events).2 ∧
        ∀ p ∈ (selRun events).selectedIds, (selRun events).currentChannelId = some p.2) ∧
    (∀ (s : SelState) (m c c0 : String), s.isSelectionMode = true →
        s.currentChannelId = some c0 → c0 ≠ c →
        toggleMessageSelection s m c =
          { isSelectionMode := true, selectedIds := [(m, c)],
            currentChannelId := some c, lastSelectedId := some m }) ∧
    (∀ (s : SelState) (m c : String), s.isSelectionMode = false →
        toggleMessageSelection s m c = s) := by
  refine ⟨?_, ?_, ?_⟩
  · intro events
    obtain ⟨_, hc, _, hinv⟩ := selCoupled_run events
    exact ⟨hc, hinv⟩
  · intro s m c c0 hmode hchan hne
    simp only [toggleMessageSelection, hmode, Bool.not_true, Bool.false_eq_true, if_false]
    have hbind : bindChannel s c =
        { s with selectedIds := [], currentChannelId := some c, lastSelectedId := none } := by
      unfold bindChannel
      rw [hchan]
      simp [hne]
    rw [hbind]
    simp [toggleMembership, isMessageSelected, hmode]
  · intro s m c hmode
    simp [toggleMessageSelection, hmode]

/-- Witness for C2 at concrete inputs: a cross-channel select rebinds and
keeps only the new selection, and a select while off does nothing. -/
theorem C2_selection_channel_invariant_witness :
    toggleMessageSelection
        { isSelectionMode := true, selectedIds := [("m1", "a")],
          currentChannelId := some "a", lastSelectedId := some "m1" } "m2" "b" =
      { isSelectionMode := true, selectedIds := [("m2", "b")],
        currentChannelId := some "b", lastSelectedId := some "m2" } ∧
    toggleMessageSelection initialSel "m1" "a" = initialSel :=
  ⟨C2_selection_channel_invariant.2.1 _ "m2" "b" "a" rfl rfl (by decide),
   C2_selection_channel_invariant.2.2 initialSel "m1" "a" rfl⟩

/-! ## Progress tracker (progressBar.tsx)

Module state: `_isTranslating`, `_progress` (0 to 100), `_total`, `_current`.
Numbers are embedded as integers; Math.round of the percentage is embedded as
floor((200 * current + total) / (2 * total)) for positive total, matching the
JS value (JS Math.round rounds halves toward positive infinity). -/

structure ProgressState where
  isTranslating : Bool
  progress : Int
  total : Int
  current : Int
deriving DecidableEq, Repr

/-- Initial module state of progressBar.tsx. -/
def initialProgress : ProgressState :=
  { isTranslating := false, progress := 0, total := 0, current := 0 }

/-- startProgress(total = 1): resets and activates. -/
def startProgress (s : ProgressState) (total : Int) : ProgressState :=
  { s with isTranslating := true, total := total, current := 0, progress := 0 }

/-- Math.round((current / total) * 100) for total > 0, as an integer floor of
the half-up rounding. -/
def roundPercent (current total : Int) : Int :=
  (200 * current + total).fdiv (2 * total)

/-- updateProgress(current?): sets an explicit position or increments by one,
then recomputes the percentage (0 when total is 0, indeterminate mode). -/
def updateProgress (s : ProgressState) (current : Option Int) : ProgressState :=
  let cur :=
    match current with
    | some c => c
    | none => s.current + 1
  { s with current := cur,
           progress := if s.total > 0 then roundPercent cur s.total else 0 }

/-- endProgress, immediate part: marks complete (100%), deactivates. -/
def endProgress (s : ProgressState) : ProgressState :=
  { s with isTranslating := false, progress := 100 }

/-- The delayed body of the setTimeout inside endProgress: resets to idle. -/
def endProgressReset (s : ProgressState) : ProgressState :=
  { s with progress := 0, total := 0, current := 0 }

/-- Operations of the progress tracker. -/
inductive ProgressOp where
  | start (total : Int) : ProgressOp
  | update (current : Option Int) : ProgressOp
  | finish : ProgressOp
  | reset : ProgressOp
deriving DecidableEq, Repr

/-- One step of the progress tracker. -/
def progressStep (s : ProgressState) : ProgressOp → ProgressState
  | .start t => startProgress s t
  | .update c => updateProgress s c
  | .finish => endProgress s
  | .reset => endProgressReset s

/-- Runs a sequence of progress operations from the initial module state. -/
def progressRun (ops : List ProgressOp) : ProgressState :=
  ops.foldl progressStep initialProgress

/-- The claimed Progress State invariant: 0 <= current <= total whenever
total > 0 (total = 0 signals indeterminate mode). -/
def progressInv (s : ProgressState) : Prop :=
  0 < s.total → 0 ≤ s.current ∧ s.current ≤ s.total

instance (s : ProgressState) : Decidable (progressInv s) := by
  unfold progressInv
  infer_instance

/-- Guard under which a single operation preserves the invariant: an explicit
update position must lie in [0, total] and a bare (incrementing) update must
start from current < total, in both cases only when total > 0; start, finish
and the delayed reset need no guard. -/
def progressOpOk (s : ProgressState) : ProgressOp → Prop
  | .start _ => True
  | .update (some c) => 0 < s.total → 0 ≤ c ∧ c ≤ s.total
  | .update none => 0 < s.total → s.current < s.total
  | .finish => True
  | .reset => True

/-- A sequence of guarded operations from a given state. -/
def progressSeqOk (s : ProgressState) : List ProgressOp → Prop
  | [] => True
  | op :: rest => progressOpOk s op ∧ progressSeqOk (progressStep s op) rest

instance progressOpOkDec (s : ProgressState) : (op : ProgressOp) → Decidable (progressOpOk s op)
  | .start _ => .isTrue trivial
  | .update (some c) => inferInstanceAs (Decidable (0 < s.total → 0 ≤ c ∧ c ≤ s.total))
  | .update none => inferInstanceAs (Decidable (0 < s.total → s.current < s.total))
  | .finish => .isTrue trivial
  | .reset => .isTrue trivial

instance progressSeqOkDec : (ops : List ProgressOp) → (s : ProgressState) →
    Decidable (progressSeqOk s ops)
  | [], _ => .isTrue trivial
  | op :: rest, s =>
    have : Decidable (progressSeqOk (progressStep s op) rest) := progressSeqOkDec rest _
    inferInstanceAs (Decidable (progressOpOk s op ∧ progressSeqOk (progressStep s op) rest))

theorem progressInv_step (s : ProgressState) (op : ProgressOp)
    (hinv : progressInv s) (hok : progressOpOk s op) : progressInv (progressStep s op) := by
  cases op with
  | start t =>
    intro ht
    simp only [progressStep, startProgress] at *
    omega
  | update c =>
    cases c with
    | some v =>
      intro ht
      simp only [progressStep, updateProgress, progressOpOk] at *
      exact hok ht
    | none =>
      intro ht
      simp only [progressStep, updateProgress, progressOpOk] at *
      have h1 := hinv ht
      have h2 := hok ht
      omega
  | finish =>
    intro ht
    simp only [progressStep, endProgress] at *
    exact hinv ht
  | reset =>
    intro ht
    simp only [progressStep, endProgressReset] at ht
    omega

/-- C6 counterexample: the claimed invariant is not preserved by every
sequence of start/update/end operations; after start(1) two bare updates
drive current to 2 while total is 1. -/
theorem C6_progress_invariant_counterexample :
    (progressRun [.start 1, .update none, .update none]).total = 1 ∧
    (progressRun [.start 1, .update none, .update none]).current = 2 ∧
    ¬ progressInv (progressRun [.start 1, .update none, .update none]) := by
  refine ⟨by decide, by decide, ?_⟩
  intro h
  have := h (by decide)
  revert this
  decide

/-- C6 (amended): the invariant 0 <= current <= total whenever total > 0
(total = 0 signalling indeterminate mode) holds in the initial state and is
preserved by every sequence of start(total)/update(current?)/end()/reset
operations in which each explicit update position lies in [0, total] and each
bare incrementing update is issued only while current < total (whenever
total > 0); updateProgress itself does not clamp, so unguarded updates can
violate the bound. -/
theorem C6_progress_invariant_guarded (ops : List ProgressOp)
    (hok : progressSeqOk initialProgress ops) : progressInv (progressRun ops) := by
  rw [progressRun]
  have main : ∀ (l : List ProgressOp) (s : ProgressState),
      progressInv s → progressSeqOk s l → progressInv (l.foldl progressStep s) := by
    intro l
    induction l with
    | nil => intro s h _; exact h
    | cons op rest ih =>
      intro s h hseq
      exact ih _ (progressInv_step s op h hseq.1) hseq.2
  exact main ops initialProgress (by intro h; exact ⟨le_refl 0, le_of_lt h⟩) hok

/-- Witness for C6 at a concrete guarded run of a determinate batch of 2. -/
theorem C6_progress_invariant_guarded_witness :
    progressSeqOk initialProgress
      [.start 2, .update none, .update (some 2), .finish, .reset] ∧
    progressInv (progressRun [.start 2, .update none, .update (some 2), .finish, .reset]) :=
  ⟨by decide, C6_progress_invariant_guarded _ (by decide)⟩

/-! ## Translation result store (translationStore.ts)

The JS object `_cache` (a Record from message id to SavedTranslation) is
embedded as an association list in key insertion order, matching JS object
key-ordering semantics for string keys: overwriting keeps the original
position, deleting removes the key, re-adding appends at the end.  The
DataStore entry under DB_KEY is the `persisted` field.  The keys of `_cache`
are pairwise distinct on every reachable state, so removing every entry with
a key is the same operation as JS delete. -/

/-- Embedding of writing `obj[k] = v` on a JS object. -/
def setKey (k : String) (v : SavedTranslation) :
    List (String × SavedTranslation) → List (String × SavedTranslation)
  | [] => [(k, v)]
  | (k0, v0) :: rest => if k0 = k then (k, v) :: rest else (k0, v0) :: setKey k v rest

/-- Embedding of `delete obj[k]` on a JS object. -/
def delKey (k : String) (l : List (String × SavedTranslation)) :
    List (String × SavedTranslation) :=
  l.filter (fun p => p.1 ≠ k)

/-- Embedding of reading `obj[k]` on a JS object. -/
def lookupKey (k : String) : List (String × SavedTranslation) → Option SavedTranslation
  | [] => none
  | (k0, v0) :: rest => if k0 = k then some v0 else lookupKey k rest

theorem lookupKey_setKey_self (k : String) (v : SavedTranslation)
    (l : List (String × SavedTranslation)) : lookupKey k (setKey k v l) = some v := by
  induction l with
  | nil => simp [setKey, lookupKey]
  | cons p rest ih =>
    obtain ⟨k0, v0⟩ := p
    by_cases h : k0 = k
    · simp [setKey, lookupKey, h]
    · simp [setKey, lookupKey, h, ih]

theorem lookupKey_setKey_other (k k1 : String) (v : SavedTranslation)
    (l : List (String × SavedTranslation)) (h : k1 ≠ k) :
    lookupKey k1 (setKey k v l) = lookupKey k1 l := by
  induction l with
  | nil => simp [setKey, lookupKey, Ne.symm h]
  | cons p rest ih =>
    obtain ⟨k0, v0⟩ := p
    by_cases h0 : k0 = k
    · subst h0
      simp [setKey, lookupKey, Ne.symm h]
    · by_cases h1 : k0 = k1
      · subst h1
        simp [setKey, lookupKey, h0]
      · simp [setKey, lookupKey, h0, h1, ih]

theorem lookupKey_delKey_self (k : String) (l : List (String × SavedTranslation)) :
    lookupKey k (delKey k l) = none := by
  induction l with
  | nil => simp [delKey, lookupKey]
  | cons p rest ih =>
    obtain ⟨k0, v0⟩ := p
    by_cases h : k0 = k
    · simpa [delKey, lookupKey, h] using ih
    · simpa [delKey, lookupKey, h] using ih

theorem lookupKey_delKey_other (k k1 : String) (l : List (String × SavedTranslation))
    (h : k1 ≠ k) : lookupKey k1 (delKey k l) = lookupKey k1 l := by
  induction l with
  | nil => simp [delKey, lookupKey]
  | cons p rest ih =>
    obtain ⟨k0, v0⟩ := p
    by_cases h0 : k0 = k
    · subst h0
      simpa [delKey, lookupKey, Ne.symm h] using ih
    · by_cases h1 : k0 = k1
      · subst h1
        simp [delKey, lookupKey, h0, h]
      · simpa [delKey, lookupKey, h0, h1] using ih

theorem map_fst_setKey (k : String) (v : SavedTranslation)
    (l : List (String × SavedTranslation)) :
    (setKey k v l).map Prod.fst =
      if k ∈ l.map Prod.fst then l.map Prod.fst else l.map Prod.fst ++ [k] := by
  induction l with
  | nil => simp [setKey]
  | cons p rest ih =>
    obtain ⟨k0, v0⟩ := p
    by_cases h0 : k0 = k
    · subst h0
      simp [setKey]
    · simp only [setKey, h0, if_false, List.map_cons, ih]
      by_cases hmem : k ∈ rest.map Prod.fst
      · simp [hmem, List.mem_cons, h0, Ne.symm h0]
      · simp [hmem, List.mem_cons, h0, Ne.symm h0]

theorem nodupKeys_setKey (k : String) (v : SavedTranslation)
    (l : List (String × SavedTranslation)) (h : (l.map Prod.fst).Nodup) :
    ((setKey k v l).map Prod.fst).Nodup := by
  rw [map_fst_setKey]
  by_cases hmem : k ∈ l.map Prod.fst
  · simpa [hmem] using h
  · simp only [hmem, if_false]
    have hperm : List.Perm (l.map Prod.fst ++ [k]) (k :: l.map Prod.fst) :=
      List.perm_append_singleton k (l.map Prod.fst)
    exact hperm.nodup_iff.2 (List.nodup_cons.2 ⟨hmem, h⟩)

theorem nodupKeys_delKey (k : String) (l : List (String × SavedTranslation))
    (h : (l.map Prod.fst).Nodup) : ((delKey k l).map Prod.fst).Nodup := by
  have hsub : List.Sublist ((delKey k l).map Prod.fst) (l.map Prod.fst) :=
    (List.filter_sublist l).map Prod.fst
  exact List.Nodup.sublist hsub h

/-- Module state of translationStore.ts: the in-memory `_cache`, the
`_loaded` flag, and the DataStore record persisted under DB_KEY (none when
the key is absent or deleted). -/
structure StoreState where
  cache : List (String × SavedTranslation)
  loaded : Bool
  persisted : Option (List (String × SavedTranslation))
deriving DecidableEq, Repr

/-- Fresh-process module state: empty cache, not loaded. -/
def initialStore (persisted : Option (List (String × SavedTranslation))) : StoreState :=
  { cache := [], loaded := false, persisted := persisted }

/-- ensureLoaded, run to completion with no interleaving: hydrates the cache
from the persisted record (or the empty object) once. -/
def ensureLoaded (s : StoreState) : StoreState :=
  if s.loaded then s else { s with cache := s.persisted.getD [], loaded := true }

namespace TranslationStore

/-- TranslationStore.get: synchronous, cache-only read. -/
def get (s : StoreState) (messageId : String) : Option SavedTranslation :=
  lookupKey messageId s.cache

/-- TranslationStore.save, run to completion: await hydration, build the
SavedTranslation with Date.now() = now, upsert, persist the whole mapping. -/
def save (s : StoreState) (messageId : String) (result : TranslationValue)
    (model : Option String) (now : Nat) : StoreState :=
  let s1 := ensureLoaded s
  let c := setKey messageId (mkSaved result model now) s1.cache
  { s1 with cache := c, persisted := some c }

/-- TranslationStore.delete, run to completion: await hydration, remove the
key, persist the whole mapping. -/
def del (s : StoreState) (messageId : String) : StoreState :=
  let s1 := ensureLoaded s
  let c := delKey messageId s1.cache
  { s1 with cache := c, persisted := some c }

/-- TranslationStore.clearAll: empties the cache and deletes the DataStore
key; note it does not touch the loaded flag. -/
def clearAll (s : StoreState) : StoreState :=
  { s with cache := [], persisted := none }

/-- TranslationStore.getAll: await hydration, then Object.entries sorted with
comparator (a, b) => b.timestamp - a.timestamp (newest first); the comparator
accepts a pair exactly when the right timestamp is at most the left one. -/
def getAll (s : StoreState) : StoreState × List (String × SavedTranslation) :=
  let s1 := ensureLoaded s
  (s1, s1.cache.mergeSort (fun a b => b.2.timestamp ≤ a.2.timestamp))

/-- TranslationStore.count: size of the in-memory mapping. -/
def count (s : StoreState) : Nat :=
  s.cache.length

end TranslationStore

/-- C4: round-trip of the result cache.  Saving builds a record carrying
exactly the saved text and source language and the save-time clock value, a
get after the save returns it (the timestamp lying between the save call and
any later get call), and a subsequent delete makes the get return none. -/
theorem C4_store_round_trip (s : StoreState) (id : String) (tv : TranslationValue)
    (model : Option String) (tSave tGet : Nat) (h : tSave ≤ tGet) :
    TranslationStore.get (TranslationStore.save s id tv model tSave) id =
      some { text := tv.text, sourceLanguage := tv.sourceLanguage,
             model := model, timestamp := tSave } ∧
    (∀ v, TranslationStore.get (TranslationStore.save s id tv model tSave) id = some v →
      tSave ≤ v.timestamp ∧ v.timestamp ≤ tGet) ∧
    TranslationStore.get
      (TranslationStore.del (TranslationStore.save s id tv model tSave) id) id = none := by
  have hload : (TranslationStore.save s id tv model tSave).loaded = true := by
    unfold TranslationStore.save ensureLoaded
    by_cases hl : s.loaded <;> simp [hl]
  have hget : TranslationStore.get (TranslationStore.save s id tv model tSave) id =
      some { text := tv.text, sourceLanguage := tv.sourceLanguage,
             model := model, timestamp := tSave } := by
    simp [TranslationStore.get, TranslationStore.save, mkSaved, lookupKey_setKey_self]
  refine ⟨hget, ?_, ?_⟩
  · intro v hv
    rw [hget] at hv
    have hv2 := Option.some_inj.1 hv
    subst hv2
    exact ⟨le_refl tSave, h⟩
  · have hcache : (TranslationStore.del (TranslationStore.save s id tv model tSave) id).cache =
        delKey id (TranslationStore.save s id tv model tSave).cache := by
      unfold TranslationStore.del ensureLoaded
      simp [hload]
    simp [TranslationStore.get, hcache, lookupKey_delKey_self]

/-- Witness for C4 at a concrete save/get/delete run. -/
theorem C4_store_round_trip_witness :
    TranslationStore.get
        (TranslationStore.save (initialStore none) "42" ⟨"fr", "bonjour"⟩ none 1000) "42" =
      some { text := "bonjour", sourceLanguage := "fr", model := none, timestamp := 1000 } ∧
    TranslationStore.get
        (TranslationStore.del
          (TranslationStore.save (initialStore none) "42" ⟨"fr", "bonjour"⟩ none 1000) "42") "42" =
      none := by
  have h := C4_store_round_trip (initialStore none) "42" ⟨"fr", "bonjour"⟩ none 1000 2000
    (by decide)
  exact ⟨h.1, h.2.2⟩

/-- The mutating operations of the store, as issued by callers. -/
inductive StoreOp where
  | save (id : String) (tv : TranslationValue) (model : Option String) (now : Nat) : StoreOp
  | del (id : String) : StoreOp
  | clearAll : StoreOp
deriving DecidableEq, Repr

/-- One sequential (run-to-completion) store operation. -/
def storeStep (s : StoreState) : StoreOp → StoreState
  | .save id tv model now => TranslationStore.save s id tv model now
  | .del id => TranslationStore.del s id
  | .clearAll => TranslationStore.clearAll s

/-- Runs a sequence of store operations sequentially. -/
def runStore (s : StoreState) (ops : List StoreOp) : StoreState :=
  ops.foldl storeStep s

/-- Net effect of an operation sequence on one message id, written from the
words of the spec (the last save wins unless a later delete or clearAll hits
the id), independent of the embedding of the store itself. -/
def netFrom (id : String) (a : Option SavedTranslation) (ops : List StoreOp) :
    Option SavedTranslation :=
  ops.foldl (fun acc op =>
    match op with
    | .save k tv model now => if k = id then some (mkSaved tv model now) else acc
    | .del k => if k = id then none else acc
    | .clearAll => none) a

/-- Net effect of an operation sequence starting from an empty store. -/
def netEffect (ops : List StoreOp) (id : String) : Option SavedTranslation :=
  netFrom id none ops

/-- The cache as it would read after hydration: the view every mutating
operation works on. -/
def effCache (s : StoreState) : List (String × SavedTranslation) :=
  (ensureLoaded s).cache

theorem ensureLoaded_loaded (s : StoreState) : (ensureLoaded s).loaded = true := by
  unfold ensureLoaded
  by_cases h : s.loaded <;> simp [h]

theorem ensureLoaded_of_loaded (s : StoreState) (h : s.loaded = true) :
    ensureLoaded s = s := by
  unfold ensureLoaded
  simp [h]

theorem effCache_save (s : StoreState) (id : String) (tv : TranslationValue)
    (model : Option String) (now : Nat) :
    effCache (TranslationStore.save s id tv model now) =
      setKey id (mkSaved tv model now) (effCache s) := by
  have h1 : (TranslationStore.save s id tv model now).loaded = true :=
    ensureLoaded_loaded s
  unfold effCache
  rw [ensureLoaded_of_loaded _ h1]
  rfl

theorem effCache_del (s : StoreState) (id : String) :
    effCache (TranslationStore.del s id) = delKey id (effCache s) := by
  have h1 : (TranslationStore.del s id).loaded = true :=
    ensureLoaded_loaded s
  unfold effCache
  rw [ensureLoaded_of_loaded _ h1]
  rfl

theorem effCache_clearAll (s : StoreState) :
    effCache (TranslationStore.clearAll s) = [] := by
  unfold effCache TranslationStore.clearAll ensureLoaded
  by_cases h : s.loaded <;> simp [h]

theorem runStore_effCache (ops : List StoreOp) :
    ∀ (s : StoreState) (acc : String → Option SavedTranslation),
    (∀ id, lookupKey id (effCache s) = acc id) →
    ((effCache s).map Prod.fst).Nodup →
    (∀ id, lookupKey id (effCache (runStore s ops)) =
        (ops.foldl (fun a op =>
          match op with
          | .save k tv model now => fun id => if k = id then some (mkSaved tv model now) else a id
          | .del k => fun id => if k = id then none else a id
          | .clearAll => fun _ => none) acc) id) ∧
    ((effCache (runStore s ops)).map Prod.fst).Nodup := by
  induction ops with
  | nil => intro s acc hacc hnd; exact ⟨hacc, hnd⟩
  | cons op rest ih =>
    intro s acc hacc hnd
    cases op with
    | save k tv model now =>
      refine ih (TranslationStore.save s k tv model now) _ ?_ ?_
      · intro id
        rw [effCache_save]
        by_cases hk : k = id
        · subst hk
          simp [lookupKey_setKey_self]
        · rw [lookupKey_setKey_other _ _ _ _ (fun hh => hk hh.symm)]
          simp [hk, hacc id]
      · rw [effCache_save]
        exact nodupKeys_setKey _ _ _ hnd
    | del k =>
      refine ih (TranslationStore.del s k) _ ?_ ?_
      · intro id
        rw [effCache_del]
        by_cases hk : k = id
        · subst hk
          simp [lookupKey_delKey_self]
        · rw [lookupKey_delKey_other _ _ _ (fun hh => hk hh.symm)]
          simp [hk, hacc id]
      · rw [effCache_del]
        exact nodupKeys_delKey _ _ hnd
    | clearAll =>
      refine ih (TranslationStore.clearAll s) _ ?_ ?_
      · intro id
        rw [effCache_clearAll]
        simp [lookupKey]
      · rw [effCache_clearAll]
        simp

theorem netFrom_eq_foldl (ops : List StoreOp) (id : String)
    (acc : String → Option SavedTranslation) :
    (ops.foldl (fun a op =>
        match op with
        | .save k tv model now => fun id => if k = id then some (mkSaved tv model now) else a id
        | .del k => fun id => if k = id then none else a id
        | .clearAll => fun _ => none) acc) id = netFrom id (acc id) ops := by
  induction ops generalizing acc with
  | nil => simp [netFrom]
  | cons op rest ih =>
    cases op with
    | save k tv model now => simp [netFrom, List.foldl] at *; rw [ih]
    | del k => simp [netFrom, List.foldl] at *; rw [ih]
    | clearAll => simp [netFrom, List.foldl] at *; rw [ih]

theorem lookupKey_eq_of_perm {l l2 : List (String × SavedTranslation)}
    (h : List.Perm l l2) :
    (l.map Prod.fst).Nodup → ∀ k, lookupKey k l = lookupKey k l2 := by
  induction h with
  | nil => intro _ k; rfl
  | cons x h ih =>
    intro hnd k
    simp only [List.map_cons, List.nodup_cons] at hnd
    obtain ⟨x1, x2⟩ := x
    by_cases hx : x1 = k
    · simp [lookupKey, hx]
    · simp only [lookupKey, hx, if_false]
      exact ih hnd.2 k
  | swap x y l =>
    intro hnd k
    obtain ⟨x1, x2⟩ := x
    obtain ⟨y1, y2⟩ := y
    by_cases hy : y1 = k
    · by_cases hx : x1 = k
      · exfalso
        simp only [List.map_cons, List.nodup_cons, List.mem_cons] at hnd
        exact hnd.1 (Or.inl (by rw [hy, hx]))
      · simp [lookupKey, hx, hy]
    · simp [lookupKey, hy]
  | trans h1 h2 ih1 ih2 =>
    intro hnd k
    rw [ih1 hnd k]
    exact ih2 (((h1.map Prod.fst).nodup_iff).1 hnd) k

/-- C5: after any sequence of save/delete/clearAll operations on a fresh
store, getAll returns an entry list with pairwise-distinct keys whose value
at every message id is exactly the net effect of the sequence, ordered
newest-first (descending timestamps). -/
theorem C5_getAll_net_effect (ops : List StoreOp) :
    ((TranslationStore.getAll (runStore (initialStore none) ops)).2.map Prod.fst).Nodup ∧
    (∀ id, lookupKey id (TranslationStore.getAll (runStore (initialStore none) ops)).2 =
      netEffect ops id) ∧
    (TranslationStore.getAll (runStore (initialStore none) ops)).2.Pairwise
      (fun a b => b.2.timestamp ≤ a.2.timestamp) := by
  have hbase1 : ∀ id, lookupKey id (effCache (initialStore none)) = none := by
    intro id
    simp [effCache, initialStore, ensureLoaded, lookupKey, Option.getD]
  have hbase2 : ((effCache (initialStore none)).map Prod.fst).Nodup := by
    simp [effCache, initialStore, ensureLoaded, Option.getD]
  obtain ⟨hlook, hnd⟩ := runStore_effCache ops (initialStore none) (fun _ => none) hbase1 hbase2
  have hlook2 : ∀ id, lookupKey id (effCache (runStore (initialStore none) ops)) =
      netEffect ops id := by
    intro id
    rw [hlook id, netFrom_eq_foldl]
    rfl
  have hentries : (TranslationStore.getAll (runStore (initialStore none) ops)).2 =
      (effCache (runStore (initialStore none) ops)).mergeSort
        (fun a b => b.2.timestamp ≤ a.2.timestamp) := by
    unfold TranslationStore.getAll effCache
    rfl
  have hperm := List.mergeSort_perm (effCache (runStore (initialStore none) ops))
    (fun a b => b.2.timestamp ≤ a.2.timestamp)
  refine ⟨?_, ?_, ?_⟩
  · rw [hentries]
    exact ((hperm.map Prod.fst).nodup_iff).2 hnd
  · intro id
    rw [hentries, lookupKey_eq_of_perm hperm (((hperm.map Prod.fst).nodup_iff).2 hnd) id]
    exact hlook2 id
  · rw [hentries]
    have hsorted : (List.mergeSort (effCache (runStore (initialStore none) ops))
        (fun a b => decide (b.2.timestamp ≤ a.2.timestamp))).Pairwise
        (fun a b => decide (b.2.timestamp ≤ a.2.timestamp) = true) :=
      List.sorted_mergeSort
        (fun a b c h1 h2 => by
          simp only [decide_eq_true_eq] at *
          omega)
        (fun a b => by
          simp only [Bool.or_eq_true, decide_eq_true_eq]
          omega)
        (effCache (runStore (initialStore none) ops))
    exact hsorted.imp (fun h => by simpa using h)


/-! ## Interleaved hydration (translationStore.ts, ensureLoaded under
concurrent callers)

The async functions suspend at each await; between awaits they run
atomically.  A save call has three atomic segments:
(1) the synchronous prefix of ensureLoaded, which tests `_loaded` and, when
it is false, issues the DataStore.get request (the value that request will
deliver is the persisted record as of issue time);
(2) the resumption after DataStore.get, which assigns `_cache` and
`_loaded`;
(3) the body of save after `await ensureLoaded()`, which upserts the record
and persists the whole mapping (the DataStore.set completes the call).
A task whose first segment finds `_loaded` already true skips segment (2). -/

/-- Program counter of one in-flight TranslationStore.save call. -/
inductive SavePc where
  | start : SavePc
  | afterLoad : SavePc
  | mutate : SavePc
  | finished : SavePc
deriving DecidableEq, Repr

/-- One in-flight save call: its arguments, its program counter, and the
value its pending DataStore.get will deliver. -/
structure SaveTask where
  id : String
  tv : TranslationValue
  model : Option String
  now : Nat
  pc : SavePc
  pending : List (String × SavedTranslation)
deriving DecidableEq, Repr

/-- Shared module state plus the in-flight tasks and a count of issued
DataStore.get loads. -/
structure ConcState where
  shared : StoreState
  tasks : List SaveTask
  loadCount : Nat
deriving DecidableEq, Repr

/-- Advances one task by one atomic segment. -/
def taskStep (shared : StoreState) (t : SaveTask) (loadCount : Nat) :
    StoreState × SaveTask × Nat :=
  match t.pc with
  | .start =>
    if shared.loaded then
      (shared, { t with pc := .mutate }, loadCount)
    else
      (shared, { t with pc := .afterLoad, pending := shared.persisted.getD [] }, loadCount + 1)
  | .afterLoad =>
    ({ shared with cache := t.pending, loaded := true }, { t with pc := .mutate }, loadCount)
  | .mutate =>
    let c := setKey t.id (mkSaved t.tv t.model t.now) shared.cache
    ({ shared with cache := c, persisted := some c }, { t with pc := .finished }, loadCount)
  | .finished => (shared, t, loadCount)

/-- Runs the scheduled task (by index) for one atomic segment. -/
def concStep (s : ConcState) (i : Nat) : ConcState :=
  match s.tasks[i]? with
  | none => s
  | some t =>
    let (sh, t2, lc) := taskStep s.shared t s.loadCount
    { shared := sh, tasks := s.tasks.set i t2, loadCount := lc }

/-- Runs a whole schedule (a list of task indices). -/
def concRun (s : ConcState) (schedule : List Nat) : ConcState :=
  schedule.foldl concStep s

/-- Fresh process with two pending save calls for distinct message ids,
both issued before the first hydration completes. -/
def twoSaveStart : ConcState :=
  { shared := { cache := [], loaded := false, persisted := none },
    tasks :=
      [ { id := "a", tv := ⟨"fr", "bonjour"⟩, model := none, now := 1, pc := .start, pending := [] },
        { id := "b", tv := ⟨"de", "hallo"⟩, model := none, now := 2, pc := .start, pending := [] } ],
    loadCount := 0 }

/-- C3 refutation: under the interleaving in which both save calls enter
ensureLoaded before the first DataStore.get resolves, the code issues two
underlying loads (the claim requires exactly one), and the second hydration
overwrites the in-memory mapping after the first save already wrote, so the
completed save of id "a" is missing from the final persisted mapping: the
mutating calls did not serialize behind a single load.  Both tasks run to
completion in the schedule, so the lost write is not an artifact of an
unfinished call. -/
theorem C3_hydration_race :
    (concRun twoSaveStart [0, 1, 0, 0, 1, 1]).loadCount = 2 ∧
    (∀ t ∈ (concRun twoSaveStart [0, 1, 0, 0, 1, 1]).tasks, t.pc = .finished) ∧
    lookupKey "a" ((concRun twoSaveStart [0, 1, 0, 0, 1, 1]).shared.persisted.getD []) = none ∧
    lookupKey "a" ((concRun twoSaveStart [0, 1, 0, 0, 1, 1]).shared.cache) = none := by
  refine ⟨by decide, ?_, by decide, by decide⟩
  have h : ((concRun twoSaveStart [0, 1, 0, 0, 1, 1]).tasks.all
      (fun t => t.pc = SavePc.finished)) = true := by decide
  intro t ht
  simpa using List.all_eq_true.1 h t ht

/-! ## OpenRouter LLM backend (openrouter.ts)

The Native relay calls return an HTTP status and a raw body; the body-level
parsing steps are embedded as the already-parsed views the code extracts:
for the model listing, the `data` array of the parsed response; for a chat
completion, the `choices[0]?.message?.content` chain (none when absent or
empty, matching the falsy test) and the result of matching the first JSON
array in the content and JSON.parse-ing it (none when no match or the parse
throws, both of which land in the same catch).  A missing or empty API key
is embedded as the empty string, matching the falsy test `!apiKey`.
localeCompare is embedded as the order on strings. -/

structure ORModel where
  id : String
  name : String
  pricing : Option (String × String)
deriving DecidableEq, Repr

/-- Parsed view of the Native.fetchOpenRouterModels reply. -/
structure ModelsReply where
  status : Int
  parsed : Option (List ORModel)
deriving DecidableEq, Repr

/-- fetchModels: credential and status checks, then map, sort by name, and
cache the id/name pairs.  Returns the result (or the thrown message) and the
new value of settings.store.openrouterModelsCache; every throwing path
leaves the cache unchanged. -/
def fetchModels (apiKey : String) (reply : ModelsReply) (cache : List ORModel) :
    Except String (List ORModel) × List ORModel :=
  if apiKey = "" then (.error "OpenRouter API key is not set", cache)
  else if reply.status = -1 then (.error "Failed to connect to OpenRouter API", cache)
  else if reply.status = 401 then (.error "Invalid OpenRouter API key", cache)
  else if reply.status ≠ 200 then (.error "Failed to fetch models", cache)
  else
    match reply.parsed with
    | none => (.error "SyntaxError: JSON.parse", cache)
    | some data =>
      let models := (data.map (fun m => { id := m.id, name := m.name, pricing := m.pricing }))
        |>.mergeSort (fun a b => a.name ≤ b.name)
      (.ok models, models.map (fun m => { id := m.id, name := m.name, pricing := none }))

/-- getModels: returns the cached models when the cache is nonempty,
otherwise delegates to fetchModels. -/
def getModels (apiKey : String) (reply : ModelsReply) (cache : List ORModel) :
    Except String (List ORModel) × List ORModel :=
  if cache.length > 0 then (.ok cache, cache)
  else fetchModels apiKey reply cache

/-- Parsed view of one Native.makeOpenRouterTranslateRequest reply. -/
structure ChatReply where
  status : Int
  content : Option String
  parsedArray : Option (List String)
deriving DecidableEq, Repr

/-- Embeds String.prototype.trim: drops leading and trailing whitespace
characters.  Defined from scratch so that it evaluates inside the kernel. -/
def isWS (c : Char) : Bool :=
  c = ' ' || c = '\t' || c = '\n' || c = '\r'

/-- Drops leading and trailing whitespace of a string. -/
def trimStr (s : String) : String :=
  ⟨((s.data.dropWhile isWS).reverse.dropWhile isWS).reverse⟩

/-- Outcome of a batch translate call: the returned value or thrown message,
the console diagnostics recorded, and how many relay requests were issued. -/
structure BatchOutcome where
  result : Except String (List TranslationValue)
  logs : List String
  requests : Nat
deriving Repr

/-- translateBatchWithLLM from openrouter.ts: missing-credential check, the
empty-input early return before any request, the status check, the content
check, the array extraction, the length-mismatch warning (proceeding with
whatever was returned, matched by position), and the per-string trim. -/
def translateBatchWithLLM (apiKey : String) (texts : List String) (reply : ChatReply) :
    BatchOutcome :=
  if apiKey = "" then
    { result := .error "OpenRouter API key is not set", logs := [], requests := 0 }
  else if texts.length = 0 then
    { result := .ok [], logs := [], requests := 0 }
  else if reply.status ≠ 200 then
    { result := .error "OpenRouter Batch API error", logs := [], requests := 1 }
  else
    match reply.content with
    | none =>
      { result := .error "No translation returned from OpenRouter", logs := [], requests := 1 }
    | some _ =>
      match reply.parsedArray with
      | none =>
        { result := .error "Failed to parse batch translation results",
          logs := ["Failed to parse batch translation response"], requests := 1 }
      | some results =>
        { result := .ok (results.map (fun text => { sourceLanguage := "LLM", text := trimStr text })),
          logs :=
            if results.length ≠ texts.length then ["Batch result length mismatch"] else [],
          requests := 1 }

/-- C7: when the key is set, the batch is nonempty, the reply has status 200
with content, and the parsed array has M entries with M different from the
number N of requested texts, the call returns the M results matched by
position (trimmed, source language LLM) without raising, and records the
mismatch diagnostic. -/
theorem C7_batch_mismatch_tolerance (apiKey : String) (texts : List String)
    (reply : ChatReply) (arr : List String) (c : String)
    (hkey : apiKey ≠ "") (hne : texts.length ≠ 0) (hstatus : reply.status = 200)
    (hcontent : reply.content = some c) (harr : reply.parsedArray = some arr)
    (hmm : arr.length ≠ texts.length) :
    (translateBatchWithLLM apiKey texts reply).result =
      .ok (arr.map (fun text => { sourceLanguage := "LLM", text := trimStr text })) ∧
    (∀ l, (translateBatchWithLLM apiKey texts reply).result = .ok l → l.length = arr.length) ∧
    (translateBatchWithLLM apiKey texts reply).logs = ["Batch result length mismatch"] := by
  have hout : translateBatchWithLLM apiKey texts reply =
      { result := .ok (arr.map (fun text => { sourceLanguage := "LLM", text := trimStr text })),
        logs := ["Batch result length mismatch"], requests := 1 } := by
    unfold translateBatchWithLLM
    rw [if_neg hkey, if_neg hne, if_neg (by rw [hstatus]; decide), hcontent, harr]
    simp [hmm]
  refine ⟨by rw [hout], ?_, by rw [hout]⟩
  intro l hl
  rw [hout] at hl
  simp only [Except.ok.injEq] at hl
  rw [← hl, List.length_map]

/-- Witness for C7: three texts requested, two results parsed. -/
theorem C7_batch_mismatch_tolerance_witness :
    (translateBatchWithLLM "key" ["a", "b", "c"]
        { status := 200, content := some "x", parsedArray := some ["X ", "Y"] }).result =
      .ok [{ sourceLanguage := "LLM", text := "X" }, { sourceLanguage := "LLM", text := "Y" }] ∧
    (translateBatchWithLLM "key" ["a", "b", "c"]
        { status := 200, content := some "x", parsedArray := some ["X ", "Y"] }).logs =
      ["Batch result length mismatch"] := by
  have h := C7_batch_mismatch_tolerance "key" ["a", "b", "c"]
    { status := 200, content := some "x", parsedArray := some ["X ", "Y"] }
    ["X ", "Y"] "x" (by decide) (by decide) rfl rfl rfl (by decide)
  exact ⟨by rw [h.1]; rfl, h.2.2⟩

/-- C10: on the empty input list the credential check still fires first when
the key is unset, and with a key set the call returns the empty result list
without issuing any relay request. -/
theorem C10_empty_batch (texts : List String) (reply : ChatReply)
    (hempty : texts = []) :
    (translateBatchWithLLM "" texts reply).result = .error "OpenRouter API key is not set" ∧
    (translateBatchWithLLM "" texts reply).requests = 0 ∧
    (∀ apiKey : String, apiKey ≠ "" →
      translateBatchWithLLM apiKey texts reply = { result := .ok [], logs := [], requests := 0 }) := by
  subst hempty
  refine ⟨rfl, rfl, ?_⟩
  intro apiKey hkey
  unfold translateBatchWithLLM
  rw [if_neg hkey]
  rfl

/-- Witness for C10 on the empty batch with and without a key. -/
theorem C10_empty_batch_witness :
    (translateBatchWithLLM "" [] { status := 200, content := none, parsedArray := none }).result =
      .error "OpenRouter API key is not set" ∧
    translateBatchWithLLM "key" [] { status := 200, content := none, parsedArray := none } =
      { result := .ok [], logs := [], requests := 0 } := by
  have h := C10_empty_batch [] { status := 200, content := none, parsedArray := none } rfl
  exact ⟨h.1, h.2.2 "key" (by decide)⟩

theorem ORModel_eta_map (data : List ORModel) :
    data.map (fun m => ({ id := m.id, name := m.name, pricing := m.pricing } : ORModel)) =
      data := by
  induction data with
  | nil => rfl
  | cons m rest ih => simp [ih]

/-- C9: a successful listing returns the models sorted by name (the output is
a permutation of the parsed data, pairwise nondecreasing in name) and writes
their id/name pairs to the cache; every failing listing leaves the cache
unchanged, so the previously cached list keeps serving as the fallback; and
getModels returns the cached list without consulting the relay when the
cache is nonempty, delegating to fetchModels only when it is empty. -/
theorem C9_model_listing :
    (∀ (apiKey : String) (reply : ModelsReply) (cache data : List ORModel),
      apiKey ≠ "" → reply.status = 200 → reply.parsed = some data →
      (fetchModels apiKey reply cache).1 =
          .ok (data.mergeSort (fun a b => a.name ≤ b.name)) ∧
        (fetchModels apiKey reply cache).2 =
          (data.mergeSort (fun a b => a.name ≤ b.name)).map
            (fun m => { id := m.id, name := m.name, pricing := none }) ∧
        List.Perm (data.mergeSort (fun a b => a.name ≤ b.name)) data ∧
        (data.mergeSort (fun a b => a.name ≤ b.name)).Pairwise
          (fun a b => a.name ≤ b.name)) ∧
    (∀ (apiKey : String) (reply : ModelsReply) (cache : List ORModel) (e : String),
      (fetchModels apiKey reply cache).1 = .error e →
      (fetchModels apiKey reply cache).2 = cache) ∧
    (∀ (apiKey : String) (reply : ModelsReply) (cache : List ORModel),
      0 < cache.length → getModels apiKey reply cache = (.ok cache, cache)) ∧
    (∀ (apiKey : String) (reply : ModelsReply),
      getModels apiKey reply [] = fetchModels apiKey reply []) := by
  refine ⟨?_, ?_, ?_, ?_⟩
  · intro apiKey reply cache data hkey hstatus hparsed
    have hout : fetchModels apiKey reply cache =
        (.ok (data.mergeSort (fun a b => a.name ≤ b.name)),
         (data.mergeSort (fun a b => a.name ≤ b.name)).map
           (fun m => { id := m.id, name := m.name, pricing := none })) := by
      unfold fetchModels
      rw [if_neg hkey, if_neg (by rw [hstatus]; decide), if_neg (by rw [hstatus]; decide),
        if_neg (by rw [hstatus]; decide), hparsed]
      simp only [ORModel_eta_map]
    refine ⟨by rw [hout], by rw [hout], ?_, ?_⟩
    · exact List.mergeSort_perm data _
    · have hsorted : (List.mergeSort data
          (fun a b => decide (a.name ≤ b.name))).Pairwise
          (fun a b => decide (a.name ≤ b.name) = true) :=
        List.sorted_mergeSort
          (fun a b c h1 h2 => by
            simp only [decide_eq_true_eq] at *
            exact le_trans h1 h2)
          (fun a b => by
            simp only [Bool.or_eq_true, decide_eq_true_eq]
            exact le_total a.name b.name)
          data
      exact hsorted.imp (fun h => by simpa using h)
  · intro apiKey reply cache e h
    unfold fetchModels at *
    by_cases h1 : apiKey = ""
    · simp [h1]
    · rw [if_neg h1] at h ⊢
      by_cases h2 : reply.status = -1
      · simp [h2]
      · rw [if_neg h2] at h ⊢
        by_cases h3 : reply.status = 401
        · simp [h3]
        · rw [if_neg h3] at h ⊢
          by_cases h4 : reply.status ≠ 200
          · simp [h4]
          · rw [if_neg h4] at h ⊢
            cases hp : reply.parsed with
            | none => simp [hp]
            | some data =>
              rw [hp] at h
              simp at h
  · intro apiKey reply cache hc
    unfold getModels
    rw [if_pos hc]
  · intro apiKey reply
    unfold getModels
    rfl

/-- Two example models, listed out of name order. -/
def modelsDataEx : List ORModel := [⟨"2", "B", none⟩, ⟨"1", "A", none⟩]

/-- Example reply of a successful model listing. -/
def modelsReplyEx : ModelsReply := ⟨200, some modelsDataEx⟩

/-- Witness for C9: a fresh fetch sorts two models by name and fills the
cache; a getModels call with a nonempty cache returns it as-is. -/
theorem C9_model_listing_witness :
    (fetchModels "key" modelsReplyEx []).1 = .ok [⟨"1", "A", none⟩, ⟨"2", "B", none⟩] ∧
    getModels "key" ⟨500, none⟩ [⟨"1", "A", none⟩] =
      (.ok [⟨"1", "A", none⟩], [⟨"1", "A", none⟩]) := by
  constructor
  · have h := (C9_model_listing.1 "key" modelsReplyEx [] modelsDataEx (by decide) rfl rfl).1
    rw [h]
    simp [modelsDataEx, List.mergeSort, List.merge]
    decide
  · exact C9_model_listing.2.2.1 "key" ⟨500, none⟩ [⟨"1", "A", none⟩] (by decide)

/-! ## Batch orchestrator (selectionMode.tsx, handleTranslateSelected)

The handler is embedded as a trace of its observable effects.  The provider
is an oracle from the index of the awaited translate call to its outcome;
Date.now() at the i-th save is `now i`.  The per-item UI update
(handleTranslate) has no persistent effect and is not traced. -/

/-- Observable effects of one run of handleTranslateSelected, in order. -/
inductive BatchEvent where
  | progressStart (total : Nat) : BatchEvent
  | providerCall (i : Nat) (content : String) : BatchEvent
  | saved (id : String) (v : SavedTranslation) : BatchEvent
  | progressUpdate (current : Nat) : BatchEvent
  | toastSuccess (n : Nat) : BatchEvent
  | toastFailure (msg : String) : BatchEvent
  | progressEnd : BatchEvent
  | exitSel : BatchEvent
deriving DecidableEq, Repr

/-- The resolution step `messages.filter(m => _selectedIds.has(m.id) &&
m.content)`: the channel messages, in message-store order, that are selected
and have nonempty content. -/
def resolveSelected (messages : List (String × String)) (selectedIds : List String) :
    List (String × String) :=
  messages.filter (fun m => selectedIds.contains m.1 && m.2 ≠ "")

/-- The awaited loop of handleTranslateSelected over the resolved items: for
the item at index i, one provider call; on success the save (with the model
setting and save-time clock) and updateProgress(i+1), then the rest; on
failure the loop aborts with the thrown message. -/
def runItems (provider : Nat → Except String TranslationValue) (model : Option String)
    (now : Nat → Nat) : List (String × String) → Nat → List BatchEvent × Option String
  | [], _ => ([], none)
  | (id, content) :: rest, i =>
    match provider i with
    | .ok tv =>
      let r := runItems provider model now rest (i + 1)
      (.providerCall i content :: .saved id (mkSaved tv model (now i)) ::
        .progressUpdate (i + 1) :: r.1, r.2)
    | .error e => ([.providerCall i content], some e)

/-- handleTranslateSelected: guard on a bound channel and nonempty selection,
resolve the selected messages from the message store, start progress at the
number of resolved items, run the loop, toast success or the caught failure
message, and in the finally block end progress and exit selection mode. -/
def handleTranslateSelected (messages : List (String × String)) (sel : SelState)
    (provider : Nat → Except String TranslationValue) (model : Option String)
    (now : Nat → Nat) : List BatchEvent :=
  match sel.currentChannelId with
  | none => []
  | some _ =>
    if getSelectedCount sel = 0 then []
    else
      let selectedMessages := resolveSelected messages (sel.selectedIds.map Prod.fst)
      let r := runItems provider model now selectedMessages 0
      .progressStart selectedMessages.length ::
        (r.1 ++
          (match r.2 with
           | none => [.toastSuccess selectedMessages.length]
           | some e => [.toastFailure e]) ++
          [.progressEnd, .exitSel])

/-- The ids persisted by a trace, in order. -/
def savedIdsOf (t : List BatchEvent) : List String :=
  t.filterMap (fun e =>
    match e with
    | .saved id _ => some id
    | _ => none)

/-- Number of provider calls in a trace. -/
def countCalls (t : List BatchEvent) : Nat :=
  t.countP (fun e =>
    match e with
    | .providerCall _ _ => true
    | _ => false)

/-- Number of endProgress calls in a trace. -/
def countEnds (t : List BatchEvent) : Nat :=
  t.countP (fun e =>
    match e with
    | .progressEnd => true
    | _ => false)

theorem savedIdsOf_append (t1 t2 : List BatchEvent) :
    savedIdsOf (t1 ++ t2) = savedIdsOf t1 ++ savedIdsOf t2 := by
  simp [savedIdsOf]

theorem countCalls_append (t1 t2 : List BatchEvent) :
    countCalls (t1 ++ t2) = countCalls t1 + countCalls t2 := by
  simp [countCalls]

theorem countEnds_append (t1 t2 : List BatchEvent) :
    countEnds (t1 ++ t2) = countEnds t1 + countEnds t2 := by
  simp [countEnds]

theorem runItems_fail (provider : Nat → Except String TranslationValue)
    (model : Option String) (now : Nat → Nat) (e : String) :
    ∀ (l : List (String × String)) (i k : Nat), 1 ≤ k → k ≤ l.length →
    (∀ j, j < k - 1 → ∃ tv, provider (i + j) = .ok tv) →
    provider (i + (k - 1)) = .error e →
    (runItems provider model now l i).2 = some e ∧
    savedIdsOf (runItems provider model now l i).1 = ((l.take (k - 1)).map Prod.fst) ∧
    countCalls (runItems provider model now l i).1 = k ∧
    countEnds (runItems provider model now l i).1 = 0 := by
  intro l
  induction l with
  | nil =>
    intro i k hk1 hkl _ _
    simp at hkl
    omega
  | cons p rest ih =>
    intro i k hk1 hkl hok herr
    obtain ⟨id, content⟩ := p
    by_cases hk : k = 1
    · subst hk
      simp only [Nat.sub_self, Nat.add_zero] at herr
      simp [runItems, herr, savedIdsOf, countCalls, countEnds]
    · have hk2 : 2 ≤ k := by omega
      obtain ⟨tv, htv⟩ := hok 0 (by omega)
      rw [Nat.add_zero] at htv
      have harith : i + 1 + (k - 1 - 1) = i + (k - 1) := by omega
      have hok2 : ∀ j, j < k - 1 - 1 → ∃ tv, provider (i + 1 + j) = .ok tv := by
        intro j hj
        have := hok (j + 1) (by omega)
        rwa [show i + (j + 1) = i + 1 + j by omega] at this
      have herr2 : provider (i + 1 + (k - 1 - 1)) = .error e := by
        rw [harith]; exact herr
      obtain ⟨ha, hb, hc, hd⟩ := ih (i + 1) (k - 1) (by omega) (by simp at hkl; omega)
        hok2 herr2
      simp only [runItems, htv]
      refine ⟨ha, ?_, ?_, ?_⟩
      · rw [show k - 1 = (k - 1 - 1) + 1 by omega]
        simp only [List.take_succ_cons, List.map_cons, savedIdsOf, List.filterMap_cons]
        simp only [savedIdsOf] at hb
        rw [hb]
      · simp only [countCalls, List.countP_cons] at hc ⊢
        simp [hc]
        omega
      · simp only [countEnds, List.countP_cons] at hd ⊢
        simpa using hd

/-- The trace of a fully successful loop: per item in order, the provider
call, the save, and the progress advance by one. -/
def okTrace (tvs : Nat → TranslationValue) (model : Option String) (now : Nat → Nat) :
    List (String × String) → Nat → List BatchEvent
  | [], _ => []
  | (id, content) :: rest, i =>
    .providerCall i content :: .saved id (mkSaved (tvs i) model (now i)) ::
      .progressUpdate (i + 1) :: okTrace tvs model now rest (i + 1)

theorem runItems_ok (provider : Nat → Except String TranslationValue)
    (tvs : Nat → TranslationValue) (model : Option String) (now : Nat → Nat)
    (hprov : ∀ j, provider j = .ok (tvs j)) :
    ∀ (l : List (String × String)) (i : Nat),
    runItems provider model now l i = (okTrace tvs model now l i, none) := by
  intro l
  induction l with
  | nil => intro i; rfl
  | cons p rest ih =>
    intro i
    obtain ⟨id, content⟩ := p
    simp only [runItems, hprov i, okTrace, ih (i + 1)]

theorem savedIdsOf_okTrace (tvs : Nat → TranslationValue) (model : Option String)
    (now : Nat → Nat) :
    ∀ (l : List (String × String)) (i : Nat),
    savedIdsOf (okTrace tvs model now l i) = l.map Prod.fst := by
  intro l
  induction l with
  | nil => intro i; rfl
  | cons p rest ih =>
    intro i
    obtain ⟨id, content⟩ := p
    simp only [okTrace, savedIdsOf, List.filterMap_cons] at *
    simp [ih (i + 1)]

/-- C1: if the k-th provider call of the batch fails (the first k-1 succeed),
the orchestrator persists exactly the first k-1 resolved items (so exactly
k-1 SavedTranslations), makes exactly k provider calls (none for items
k+1..N), calls endProgress exactly once in the finally cleanup, surfaces the
failure message, and exits selection mode as the last action. -/
theorem C1_batch_partial_failure (messages : List (String × String)) (sel : SelState)
    (provider : Nat → Except String TranslationValue) (model : Option String)
    (now : Nat → Nat) (ch e : String) (N k : Nat)
    (hch : sel.currentChannelId = some ch)
    (hsel : ¬ getSelectedCount sel = 0)
    (hN : (resolveSelected messages (sel.selectedIds.map Prod.fst)).length = N)
    (hk1 : 1 ≤ k) (hkN : k ≤ N)
    (hok : ∀ j, j < k - 1 → ∃ tv, provider j = .ok tv)
    (herr : provider (k - 1) = .error e) :
    savedIdsOf (handleTranslateSelected messages sel provider model now) =
      ((resolveSelected messages (sel.selectedIds.map Prod.fst)).take (k - 1)).map Prod.fst ∧
    (savedIdsOf (handleTranslateSelected messages sel provider model now)).length = k - 1 ∧
    countCalls (handleTranslateSelected messages sel provider model now) = k ∧
    countEnds (handleTranslateSelected messages sel provider model now) = 1 ∧
    (handleTranslateSelected messages sel provider model now).getLast? =
      some BatchEvent.exitSel ∧
    BatchEvent.toastFailure e ∈ handleTranslateSelected messages sel provider model now := by
  obtain ⟨h2, hsv, hcc, hce⟩ := runItems_fail provider model now e
    (resolveSelected messages (sel.selectedIds.map Prod.fst)) 0 k hk1 (by rw [hN]; exact hkN)
    (by intro j hj; simpa using hok j hj) (by simpa using herr)
  have hexp : handleTranslateSelected messages sel provider model now =
      BatchEvent.progressStart (resolveSelected messages (sel.selectedIds.map Prod.fst)).length ::
        ((runItems provider model now
            (resolveSelected messages (sel.selectedIds.map Prod.fst)) 0).1 ++
          [BatchEvent.toastFailure e] ++ [BatchEvent.progressEnd, BatchEvent.exitSel]) := by
    simp only [handleTranslateSelected, hch, hsel, if_false, h2]
  have hsaved : savedIdsOf (handleTranslateSelected messages sel provider model now) =
      ((resolveSelected messages (sel.selectedIds.map Prod.fst)).take (k - 1)).map Prod.fst := by
    rw [hexp]
    simp only [savedIdsOf] at hsv ⊢
    simp [List.filterMap_append, hsv]
  refine ⟨hsaved, ?_, ?_, ?_, ?_, ?_⟩
  · rw [hsaved, List.length_map, List.length_take]
    omega
  · rw [hexp]
    simp only [countCalls] at hcc ⊢
    simp [List.countP_append, hcc]
  · rw [hexp]
    simp only [countEnds] at hce ⊢
    simp [List.countP_append, hce]
  · rw [hexp]
    have hshape : BatchEvent.progressStart
          (resolveSelected messages (sel.selectedIds.map Prod.fst)).length ::
        ((runItems provider model now
            (resolveSelected messages (sel.selectedIds.map Prod.fst)) 0).1 ++
          [BatchEvent.toastFailure e] ++ [BatchEvent.progressEnd, BatchEvent.exitSel]) =
        (BatchEvent.progressStart
            (resolveSelected messages (sel.selectedIds.map Prod.fst)).length ::
          ((runItems provider model now
              (resolveSelected messages (sel.selectedIds.map Prod.fst)) 0).1 ++
            [BatchEvent.toastFailure e] ++ [BatchEvent.progressEnd])) ++
          [BatchEvent.exitSel] := by
      simp
    rw [hshape, List.getLast?_concat]
  · rw [hexp]
    simp

/-- Witness for C1: two selected messages, the second provider call fails;
exactly one save, two provider calls, one endProgress, failure toast, and
the exit of selection mode last. -/
theorem C1_batch_partial_failure_witness :
    savedIdsOf (handleTranslateSelected [("m1", "hello"), ("m2", "world")]
        { isSelectionMode := true, selectedIds := [("m1", "c"), ("m2", "c")],
          currentChannelId := some "c", lastSelectedId := some "m2" }
        (fun j => if j = 0 then .ok ⟨"LLM", "t0"⟩ else .error "boom") none (fun _ => 5)) =
      ["m1"] ∧
    countCalls (handleTranslateSelected [("m1", "hello"), ("m2", "world")]
        { isSelectionMode := true, selectedIds := [("m1", "c"), ("m2", "c")],
          currentChannelId := some "c", lastSelectedId := some "m2" }
        (fun j => if j = 0 then .ok ⟨"LLM", "t0"⟩ else .error "boom") none (fun _ => 5)) = 2 ∧
    countEnds (handleTranslateSelected [("m1", "hello"), ("m2", "world")]
        { isSelectionMode := true, selectedIds := [("m1", "c"), ("m2", "c")],
          currentChannelId := some "c", lastSelectedId := some "m2" }
        (fun j => if j = 0 then .ok ⟨"LLM", "t0"⟩ else .error "boom") none (fun _ => 5)) = 1 := by
  have h := C1_batch_partial_failure [("m1", "hello"), ("m2", "world")]
    { isSelectionMode := true, selectedIds := [("m1", "c"), ("m2", "c")],
      currentChannelId := some "c", lastSelectedId := some "m2" }
    (fun j => if j = 0 then .ok ⟨"LLM", "t0"⟩ else .error "boom") none (fun _ => 5)
    "c" "boom" 2 2 rfl (by decide) (by decide) (by decide) (by decide)
    (fun j hj => ⟨⟨"LLM", "t0"⟩, by
      have h0 : j = 0 := by omega
      subst h0
      rfl⟩)
    rfl
  exact ⟨by rw [h.1]; rfl, h.2.2.1, h.2.2.2.1⟩

/-- C8 (amended): with a bound channel, a nonempty selection and an
all-successful provider, the orchestrator resolves the selected ids against
the channel message list skipping empty contents, starts progress at the
resolved count, and processes the resolved items strictly sequentially in
message-store order (the order the messages appear in the channel, not
click-selection order), persisting each success and advancing progress by
one after each item, then toasts, ends progress and exits selection mode. -/
theorem C8_batch_sequential_resolved_order (messages : List (String × String))
    (sel : SelState) (provider : Nat → Except String TranslationValue)
    (tvs : Nat → TranslationValue) (model : Option String) (now : Nat → Nat) (ch : String)
    (hch : sel.currentChannelId = some ch)
    (hsel : ¬ getSelectedCount sel = 0)
    (hprov : ∀ j, provider j = .ok (tvs j)) :
    handleTranslateSelected messages sel provider model now =
      BatchEvent.progressStart (resolveSelected messages (sel.selectedIds.map Prod.fst)).length ::
        (okTrace tvs model now (resolveSelected messages (sel.selectedIds.map Prod.fst)) 0 ++
          [BatchEvent.toastSuccess
            (resolveSelected messages (sel.selectedIds.map Prod.fst)).length] ++
          [BatchEvent.progressEnd, BatchEvent.exitSel]) ∧
    savedIdsOf (handleTranslateSelected messages sel provider model now) =
      (resolveSelected messages (sel.selectedIds.map Prod.fst)).map Prod.fst := by
  have hexp : handleTranslateSelected messages sel provider model now =
      BatchEvent.progressStart (resolveSelected messages (sel.selectedIds.map Prod.fst)).length ::
        (okTrace tvs model now (resolveSelected messages (sel.selectedIds.map Prod.fst)) 0 ++
          [BatchEvent.toastSuccess
            (resolveSelected messages (sel.selectedIds.map Prod.fst)).length] ++
          [BatchEvent.progressEnd, BatchEvent.exitSel]) := by
    simp only [handleTranslateSelected, hch, hsel, if_false,
      runItems_ok provider tvs model now hprov]
  refine ⟨hexp, ?_⟩
  rw [hexp]
  simp only [savedIdsOf] at *
  simp [List.filterMap_append]
  have := savedIdsOf_okTrace tvs model now
    (resolveSelected messages (sel.selectedIds.map Prod.fst)) 0
  simp only [savedIdsOf] at this
  exact this

/-- C8 counterexample to the claim as stated: the processing order is the
channel message-store order, not the original click-selection order.  Here
m2 was selected before m1, yet m1 is translated and persisted first. -/
theorem C8_selection_order_counterexample :
    savedIdsOf (handleTranslateSelected [("m1", "hello"), ("m2", "world")]
        { isSelectionMode := true, selectedIds := [("m2", "c"), ("m1", "c")],
          currentChannelId := some "c", lastSelectedId := some "m1" }
        (fun _ => .ok ⟨"LLM", "x"⟩) none (fun _ => 0)) = ["m1", "m2"] ∧
    ({ isSelectionMode := true, selectedIds := [("m2", "c"), ("m1", "c")],
       currentChannelId := some "c", lastSelectedId := some "m1" } : SelState).selectedIds.map
        Prod.fst = ["m2", "m1"] ∧
    savedIdsOf (handleTranslateSelected [("m1", "hello"), ("m2", "world")]
        { isSelectionMode := true, selectedIds := [("m2", "c"), ("m1", "c")],
          currentChannelId := some "c", lastSelectedId := some "m1" }
        (fun _ => .ok ⟨"LLM", "x"⟩) none (fun _ => 0)) ≠ ["m2", "m1"] := by
  refine ⟨by decide, by decide, by decide⟩

/-- Witness for C8 (amended) at a concrete two-message batch. -/
theorem C8_batch_sequential_resolved_order_witness :
    savedIdsOf (handleTranslateSelected [("m1", "hello"), ("m2", "world")]
        { isSelectionMode := true, selectedIds := [("m2", "c"), ("m1", "c")],
          currentChannelId := some "c", lastSelectedId := some "m1" }
        (fun _ => .ok ⟨"LLM", "x"⟩) none (fun _ => 0)) = ["m1", "m2"] := by
  have h := (C8_batch_sequential_resolved_order [("m1", "hello"), ("m2", "world")]
    { isSelectionMode := true, selectedIds := [("m2", "c"), ("m1", "c")],
      currentChannelId := some "c", lastSelectedId := some "m1" }
    (fun _ => .ok ⟨"LLM", "x"⟩) (fun _ => ⟨"LLM", "x"⟩) none (fun _ => 0) "c"
    rfl (by decide) (fun _ => rfl)).2
  rw [h]
  rfl

end VencordTranslate
